import Mathlib

/-!
Shallow embedding of two libgav1 DSP kernel files:

* src/dsp/arm/distance_weighted_blend_neon.cc (8-bit NEON distance-weighted
  blend of two int16 predictor planes into a uint8 pixel plane), and
* src/dsp/x86/film_grain_sse4.cc (SSE4.1 film-grain noise blending for the
  luma plane and the two chroma modes, plus the dispatch-table registration).

Machine lanes are embedded as mathematical integers with explicit
two's-complement wraparound (`wrap16`, `wrap32`) and explicit saturation
(`sat16`, `satu8`) exactly where the SIMD instructions wrap or saturate.
Arithmetic right shifts are floor divisions by powers of two (Lean's `/` on
`Int` is euclidean division, which is floor division for positive divisors).
Pixel planes are total functions from (row, column) to sample values; a
kernel is embedded as a map from a destination cell to `some v` when the
kernel stores value `v` there and `none` when the kernel leaves the cell
untouched.
-/

namespace LibGav1

/-- Two's-complement wraparound of an integer into a signed 16-bit lane. -/
def wrap16 (v : Int) : Int := (v + 32768) % 65536 - 32768

/-- Two's-complement wraparound of an integer into a signed 32-bit lane. -/
def wrap32 (v : Int) : Int := (v + 2147483648) % 4294967296 - 2147483648

/-- Saturation to the signed 16-bit range (packs-style narrowing). -/
def sat16 (v : Int) : Int := max (-32768) (min 32767 v)

/-- Saturation to the unsigned 8-bit range
(the `_mm_packus_epi16` / `vqmovun_s16` narrowing). -/
def satu8 (v : Int) : Int := max 0 (min 255 v)

/-- Arithmetic right shift of a signed lane value by `n` bits:
floor division by `2 ^ n`. -/
def asr (v : Int) (n : Nat) : Int := v / 2 ^ n

/-- `Clip3` from film_grain_sse4.cc: min with the ceiling, then max with the
floor (`_mm_min_epi16` followed by `_mm_max_epi16`). -/
def clip3 (value low high : Int) : Int := max low (min high value)

/-- One lane of `_mm_mulhrs_epi16`: the Q15 rounding multiply
`(a * b + 2 ^ 14) >> 15`, truncated to 16 bits. -/
def mulhrs (a b : Int) : Int := wrap16 (asr (a * b + 16384) 15)

/-- One lane of ARM `vqrshrn_n_s32`: right shift by `n` with rounding
(adding `2 ^ (n - 1)` before the shift) and saturating narrow to int16. -/
def vqrshrn (v : Int) (n : Nat) : Int := sat16 (asr (v + 2 ^ (n - 1)) n)

/-! ## Distance-weighted blend (distance_weighted_blend_neon.cc, 8 bpp) -/

/-- `kInterPostRoundBit` from distance_weighted_blend_neon.cc. -/
def kInterPostRoundBit : Nat := 4

/-- One lane of `ComputeWeightedAverage8`: `w0 * p0 + w1 * p1` accumulated in
int32 lanes (`vmull_s16` / `vmlal_s16`, which wrap in 32 bits), then
`vqrshrn_n_s32` by `kInterPostRoundBit + 4`. -/
def computeWeightedAverage8 (w0 w1 p0 p1 : Int) : Int :=
  vqrshrn (wrap32 (w0 * p0 + w1 * p1)) (kInterPostRoundBit + 4)

/-- Per-sample output of the NEON distance-weighted blend: the weighted
average narrowed to a uint8 pixel by `vqmovun_s16`. -/
def blendSample (w0 w1 p0 p1 : Int) : Int :=
  satu8 (computeWeightedAverage8 w0 w1 p0 p1)

/-- `DistanceWeightedBlend_NEON` as a map from a destination cell to the
value stored there.  The three block-size paths (`4xH`, `8xH`, `Large`) group
rows and columns differently purely for throughput; each loads predictor
samples at (row, column), applies `ComputeWeightedAverage8` lane-wise,
narrows with `vqmovun_s16` and stores at the same (row, column).  For the
supported block sizes (width in {4, 8} or a multiple of 16, height a
multiple of the path's row grouping) each path writes exactly the cells
with `y < height` and `x < width`. -/
def distanceWeightedBlend (w0 w1 : Int) (width height : Nat)
    (pred0 pred1 : Nat → Nat → Int) (y x : Nat) : Option Int :=
  if y < height ∧ x < width then
    some (blendSample w0 w1 (pred0 y x) (pred1 y x))
  else none

/-- Round half away from zero of `v / 2 ^ n` (the rounding mode named by the
specification for the post-blend shift). -/
def rhaz (v : Int) (n : Nat) : Int :=
  if 0 ≤ v then (v + 2 ^ (n - 1)) / 2 ^ n
  else -((-v + 2 ^ (n - 1)) / 2 ^ n)

/-- Rounding right shift of a predictor by `kInterPostRoundBit` with int16
saturation and uint8 narrowing: what remains of the blend pipeline when one
weight is 16 and the other is 0. -/
def narrowPredictor (p : Int) : Int :=
  satu8 (sat16 (asr (p + 8) kInterPostRoundBit))

/-! ## Arithmetic helper lemmas -/

theorem wrap16_eq_self {v : Int} (h1 : -32768 ≤ v) (h2 : v ≤ 32767) :
    wrap16 v = v := by
  unfold wrap16; omega

theorem wrap32_eq_self {v : Int} (h1 : -2147483648 ≤ v) (h2 : v ≤ 2147483647) :
    wrap32 v = v := by
  unfold wrap32; omega

theorem sat16_eq_self {v : Int} (h1 : -32768 ≤ v) (h2 : v ≤ 32767) :
    sat16 v = v := by
  unfold sat16; omega

theorem satu8_eq_self {v : Int} (h1 : 0 ≤ v) (h2 : v ≤ 255) : satu8 v = v := by
  unfold satu8; omega

theorem satu8_of_nonpos {v : Int} (h : v ≤ 0) : satu8 v = 0 := by
  unfold satu8; omega

theorem satu8_bounds (v : Int) : 0 ≤ satu8 v ∧ satu8 v ≤ 255 := by
  unfold satu8; omega

theorem clip3_bounds (v : Int) {low high : Int} (h : low ≤ high) :
    low ≤ clip3 v low high ∧ clip3 v low high ≤ high := by
  unfold clip3; omega

theorem clip3_eq_satu8 (v : Int) : clip3 v 0 255 = satu8 v := by
  unfold clip3 satu8; omega

/-- Product bounds for intervals symmetric around zero. -/
theorem mul_abs_bounds {a b A B : Int} (h1 : -A ≤ a) (h2 : a ≤ A)
    (h3 : -B ≤ b) (h4 : b ≤ B) : -(A * B) ≤ a * b ∧ a * b ≤ A * B := by
  constructor <;> nlinarith

/-! ## Claims C1 and C7: distance-weighted blend -/

/-- Core per-sample lemma for C1: under int16 predictor bounds and a weight
pair summing to 16, the blend sample is the rounding right shift (round half
away from zero) of the weighted sum by 8 bits, saturated to [0, 255].  The
hardware path rounds half toward positive infinity, but the two rounding
modes only disagree on negative half-values, which saturate to 0 either
way. -/
theorem blendSample_eq_rhaz {w0 w1 p0 p1 : Int}
    (hw0 : 0 ≤ w0) (hw1 : 0 ≤ w1) (hsum : w0 + w1 = 16)
    (hp0l : -32768 ≤ p0) (hp0h : p0 ≤ 32767)
    (hp1l : -32768 ≤ p1) (hp1h : p1 ≤ 32767) :
    blendSample w0 w1 p0 p1 = satu8 (rhaz (p0 * w0 + p1 * w1) 8) := by
  have hb0 := mul_abs_bounds (A := 16) (B := 32768)
    (by omega : -(16:Int) ≤ w0) (by omega) (by omega : -(32768:Int) ≤ p0) (by omega)
  have hb1 := mul_abs_bounds (A := 16) (B := 32768)
    (by omega : -(16:Int) ≤ w1) (by omega) (by omega : -(32768:Int) ≤ p1) (by omega)
  unfold blendSample computeWeightedAverage8 vqrshrn kInterPostRoundBit
  rw [wrap32_eq_self (by omega) (by omega)]
  rw [mul_comm w0 p0, mul_comm w1 p1]
  unfold asr sat16 rhaz satu8
  set s : Int := p0 * w0 + p1 * w1 with hs
  omega

/-- C1: for every sample of the distance-weighted blend (any supported
width and height, weights with `weight0 + weight1 = 16`, predictors in the
int16 intermediate range), the stored output equals
`pred0 * weight0 + pred1 * weight1` rounding-right-shifted by the fixed
constant `kInterPostRoundBit + 4 = 8`, where the rounding is round half away
from zero, then saturated to the valid 8-bit pixel range [0, 255]. -/
theorem blend_rounds_half_away_and_saturates
    (w0 w1 : Int) (width height : Nat) (pred0 pred1 : Nat → Nat → Int)
    (hw0 : 0 ≤ w0) (hw1 : 0 ≤ w1) (hsum : w0 + w1 = 16)
    (hp0 : ∀ y x, -32768 ≤ pred0 y x ∧ pred0 y x ≤ 32767)
    (hp1 : ∀ y x, -32768 ≤ pred1 y x ∧ pred1 y x ≤ 32767)
    (y x : Nat) (hy : y < height) (hx : x < width) :
    distanceWeightedBlend w0 w1 width height pred0 pred1 y x
      = some (satu8 (rhaz (pred0 y x * w0 + pred1 y x * w1) 8)) := by
  unfold distanceWeightedBlend
  rw [if_pos ⟨hy, hx⟩]
  exact congrArg some (blendSample_eq_rhaz hw0 hw1 hsum
    (hp0 y x).1 (hp0 y x).2 (hp1 y x).1 (hp1 y x).2)

/-- Witness for C1 at the spec's own example: a 1x1 block with predictor
values 100 and 200 and weights (9, 7). -/
theorem blend_rounds_half_away_and_saturates_witness :
    distanceWeightedBlend 9 7 1 1 (fun _ _ => 100) (fun _ _ => 200) 0 0
      = some (satu8 (rhaz (100 * 9 + 200 * 7) 8)) :=
  blend_rounds_half_away_and_saturates 9 7 1 1 (fun _ _ => 100)
    (fun _ _ => 200) (by decide) (by decide) (by decide)
    (fun _ _ => by constructor <;> norm_num)
    (fun _ _ => by constructor <;> norm_num) 0 0 (by decide) (by decide)

/-- C7: for the weight pair (16, 0) the blend sample equals predictor 0
rounding-right-shifted by `kInterPostRoundBit` and saturated, with zero
contribution from predictor 1 (the right-hand side does not mention `p1`);
symmetrically for (0, 16). -/
theorem blend_degenerate_weights (p0 p1 : Int)
    (hp0l : -32768 ≤ p0) (hp0h : p0 ≤ 32767)
    (hp1l : -32768 ≤ p1) (hp1h : p1 ≤ 32767) :
    blendSample 16 0 p0 p1 = narrowPredictor p0 ∧
    blendSample 0 16 p0 p1 = narrowPredictor p1 := by
  constructor
  · unfold blendSample computeWeightedAverage8 narrowPredictor vqrshrn
      kInterPostRoundBit
    rw [wrap32_eq_self (by omega) (by omega)]
    unfold asr sat16 satu8
    omega
  · unfold blendSample computeWeightedAverage8 narrowPredictor vqrshrn
      kInterPostRoundBit
    rw [wrap32_eq_self (by omega) (by omega)]
    unfold asr sat16 satu8
    omega

/-- Witness for C7 at predictors (-40, 1000). -/
theorem blend_degenerate_weights_witness :
    blendSample 16 0 (-40) 1000 = narrowPredictor (-40) ∧
    blendSample 0 16 (-40) 1000 = narrowPredictor 1000 :=
  blend_degenerate_weights (-40) 1000 (by decide) (by decide) (by decide)
    (by decide)

/-! ## Film grain (film_grain_sse4.cc): scaling LUT and noise scaling -/

/-- One lane of `GetScalingFactors<8, Pixel>`: direct per-sample table
lookup `scaling_lut[source[i]]`. -/
def getScalingFactors8 (lut : Int → Int) (s : Int) : Int := lut s

/-- One lane of `GetScalingFactors<bitdepth >= 10, Pixel>`: coarse index
`source[i] >> 2`, endpoints `start = lut[index]` and `end = lut[index + 1]`,
remainder `(source << 14) >> 1` computed in a 16-bit lane
(`_mm_slli_epi16` wraps, `_mm_srli_epi16` is a logical shift of the lane
pattern, which is non-negative here), linear interpolation by
`_mm_mulhrs_epi16` and a 16-bit add. -/
def getScalingFactors10 (lut : Int → Int) (s : Int) : Int :=
  let index := asr s 2
  let startv := lut index
  let endv := lut (index + 1)
  let remainder := (s * 16384) % 65536 / 2
  let delta := mulhrs (wrap16 (endv - startv)) remainder
  wrap16 (startv + delta)

/-- `ScaleNoise<bitdepth>` per lane: shift the scaling factor left by the
pre-derived count `15 - scaling_shift` inside a 16-bit lane
(`_mm_sll_epi16` wraps), then Q15 rounding multiply with the noise lane. -/
def scaleNoise (noise scaling : Int) (scalingShift : Nat) : Int :=
  mulhrs noise (wrap16 (scaling * 2 ^ (15 - scalingShift)))

/-- One output lane of `GetAverageLuma` (uint8 source): with horizontal
subsampling the `_mm_hadd_epi16` of the widened bytes gives
`luma[2x] + luma[2x + 1]` in a 16-bit lane (wrapping), and
`RightShiftWithRounding_U16(., 1)` adds 1 (wrapping in the lane) and does a
logical shift by 1; without subsampling it is the widened byte itself. -/
def getAverageLuma (luma : Nat → Nat) (ssx x : Nat) : Nat :=
  if ssx ≠ 0 then ((luma (2 * x) + luma (2 * x + 1)) % 65536 + 1) % 65536 / 2
  else luma x

/-- The Q15 rounding multiply as the specification words it, with no lane
wraparound: `round_multiply(a, b) = (a * b + 2 ^ 14) >> 15`. -/
def q15RoundMultiply (a b : Int) : Int := (a * b + 16384) / 32768

/-! ## Claim C4: scaling LUT interpolation -/

/-- C4: for bit depth 8, `GetScalingFactors` is a direct per-sample table
lookup with no interpolation; for bit depth >= 10 and a 10-bit sample it
computes `start + round((end - start) * ((sample % 4) / 4))` with
`start = LUT[sample >> 2]`, `end = LUT[(sample >> 2) + 1]` and round half
up (formalized as `(d * (sample % 4) + 2) / 4` with floor division); in
particular for every sample with `sample % 4 = 0` the result is exactly
`LUT[sample >> 2]`. -/
theorem scaling_factors_interpolation (lut : Int → Int) (s : Int)
    (hlut : ∀ i, 0 ≤ lut i ∧ lut i ≤ 255) (hs0 : 0 ≤ s) (hs1 : s ≤ 1023) :
    (∀ t, getScalingFactors8 lut t = lut t) ∧
    getScalingFactors10 lut s
      = lut (s / 4) + ((lut (s / 4 + 1) - lut (s / 4)) * (s % 4) + 2) / 4 ∧
    (s % 4 = 0 → getScalingFactors10 lut s = lut (s / 4)) := by
  have hstart := hlut (s / 4)
  have hend := hlut (s / 4 + 1)
  have hm4 : s % 4 = 0 ∨ s % 4 = 1 ∨ s % 4 = 2 ∨ s % 4 = 3 := by omega
  have hmain : getScalingFactors10 lut s
      = lut (s / 4) + ((lut (s / 4 + 1) - lut (s / 4)) * (s % 4) + 2) / 4 := by
    unfold getScalingFactors10 asr
    dsimp only
    have hidx : s / 2 ^ 2 = s / 4 := by norm_num
    rw [hidx]
    have hrem : (s * 16384) % 65536 / 2 = s % 4 * 8192 := by omega
    rw [hrem]
    rw [wrap16_eq_self (v := lut (s / 4 + 1) - lut (s / 4)) (by omega)
      (by omega)]
    have hDb : -255 ≤ lut (s / 4 + 1) - lut (s / 4)
        ∧ lut (s / 4 + 1) - lut (s / 4) ≤ 255 := by omega
    have hprod := mul_abs_bounds (A := 255) (B := 3) hDb.1 hDb.2
      (by omega : -(3:Int) ≤ s % 4) (by omega)
    have hdelta : mulhrs (lut (s / 4 + 1) - lut (s / 4)) (s % 4 * 8192)
        = ((lut (s / 4 + 1) - lut (s / 4)) * (s % 4) + 2) / 4 := by
      unfold mulhrs asr wrap16
      have hnum : (lut (s / 4 + 1) - lut (s / 4)) * (s % 4 * 8192) + 16384
          = 8192 * ((lut (s / 4 + 1) - lut (s / 4)) * (s % 4) + 2) := by ring
      have h215 : (2:Int) ^ 15 = 8192 * 4 := by norm_num
      rw [hnum, h215, Int.mul_ediv_mul_of_pos _ _
        (show (0:Int) < 8192 by norm_num)]
      omega
    rw [hdelta]
    exact wrap16_eq_self (by omega) (by omega)
  refine ⟨fun t => rfl, hmain, fun hz => ?_⟩
  rw [hmain, hz]
  omega

/-- Witness for C4 at a ramp LUT and sample 6 (so `6 / 4 = 1`, `6 % 4 = 2`,
interpolating half way between `lut 1 = 10` and `lut 2 = 20`). -/
theorem scaling_factors_interpolation_witness :
    (∀ t, getScalingFactors8 (fun i => clip3 (10 * i) 0 255) t
        = clip3 (10 * t) 0 255) ∧
    getScalingFactors10 (fun i => clip3 (10 * i) 0 255) 6
      = clip3 (10 * (6 / 4)) 0 255
        + ((clip3 (10 * (6 / 4 + 1)) 0 255 - clip3 (10 * (6 / 4)) 0 255)
            * (6 % 4) + 2) / 4 ∧
    ((6:Int) % 4 = 0 → getScalingFactors10 (fun i => clip3 (10 * i) 0 255) 6
      = clip3 (10 * (6 / 4)) 0 255) :=
  scaling_factors_interpolation (fun i => clip3 (10 * i) 0 255) 6
    (fun i => by simp only [clip3]; omega) (by decide) (by decide)

/-! ## Claim C5: average luma -/

/-- C5: for every position x, `GetAverageLuma` on byte-valued luma samples
with `subsampling_x = 1` equals the rounded pairwise average
`(luma[2x] + luma[2x + 1] + 1) >> 1` of the two co-located luma samples,
and with `subsampling_x = 0` equals the single co-located luma sample. -/
theorem average_luma_formula (luma : Nat → Nat) (x : Nat)
    (hluma : ∀ i, luma i ≤ 255) :
    getAverageLuma luma 1 x = (luma (2 * x) + luma (2 * x + 1) + 1) / 2 ∧
    getAverageLuma luma 0 x = luma x := by
  have h1 := hluma (2 * x)
  have h2 := hluma (2 * x + 1)
  unfold getAverageLuma
  norm_num
  omega

/-- Witness for C5 at the spec's example row [10, 20, 30, ...] and x = 1. -/
theorem average_luma_formula_witness :
    getAverageLuma (fun i => 10 * (i % 8) + 10) 1 1
      = ((fun i => 10 * (i % 8) + 10) 2 + (fun i => 10 * (i % 8) + 10) 3 + 1) / 2 ∧
    getAverageLuma (fun i => 10 * (i % 8) + 10) 0 1
      = (fun i => 10 * (i % 8) + 10) 1 :=
  average_luma_formula (fun i => 10 * (i % 8) + 10) 1
    (fun i => by simp only []; omega)

/-! ## The luma blend kernel (BlendNoiseWithImageLuma_SSE4_1, 8 bpp) -/

/-- `width & ~7`: the number of columns handled by the full-vector loop. -/
def safeWidth (w : Nat) : Nat := w - w % 8

/-- The number of columns a kernel row loop stores to: the full-vector loop
stores `safeWidth w` columns, and when `w` is not a multiple of 8 the
right-edge iteration stores 8 further columns starting at `safeWidth w`. -/
def writtenWidth (w : Nat) : Nat :=
  if w % 8 = 0 then safeWidth w else safeWidth w + 8

/-- Lane `i` of the 8-byte `luma_buffer` of the luma kernel's right-edge
iteration: `memset` to 0, then `memcpy` of the `w - safeWidth w` trailing
real samples, then the last valid sample replicated at index
`w - safeWidth w`. -/
def lumaTailBuffer (w : Nat) (row : Nat → Nat) (i : Nat) : Nat :=
  if i < w - safeWidth w then row (safeWidth w + i)
  else if i = w - safeWidth w then row (w - 1)
  else 0

/-- One lane of the luma kernel body: `orig + ScaleNoise(noise, scaling)` in
a 16-bit lane (`_mm_add_epi16` wraps), `Clip3` to [min_value, max_luma], and
the `_mm_packus_epi16` store.  `scaleSample` is the sample fed to
`GetScalingFactors` (the real sample in the full-vector loop, the padded
buffer in the right-edge iteration); `orig` is always the real sample. -/
def lumaLane (lut : Int → Int) (scalingShift : Nat) (minValue maxLuma : Int)
    (scaleSample orig noisev : Int) : Int :=
  satu8 (clip3 (wrap16 (orig
    + scaleNoise noisev (getScalingFactors8 lut scaleSample) scalingShift))
    minValue maxLuma)

/-- `BlendNoiseWithImageLuma_SSE4_1<8, int8_t, uint8_t>` as a map from a
destination cell (y, x) to the value stored there (`none` when the kernel
does not store to that cell).  The row loop is a do-while, so row 0 is
processed even when `height = 0`; the column loop handles
`x < safeWidth width` with full vectors and, when `width` is not a multiple
of 8, one right-edge iteration that stores a full 8-lane vector at
`x = safeWidth width` with the scaling samples taken from the padded
buffer (`orig` and the noise are still loaded from the real rows). -/
def blendNoiseWithImageLuma8 (lut : Int → Int) (scalingShift : Nat)
    (minValue maxLuma : Int) (width height startHeight : Nat)
    (srcY : Nat → Nat → Nat) (noiseY : Nat → Nat → Int) (y x : Nat) :
    Option Int :=
  if max height 1 ≤ y then none
  else if x < safeWidth width then
    some (lumaLane lut scalingShift minValue maxLuma (srcY y x) (srcY y x)
      (noiseY (y + startHeight) x))
  else if x < writtenWidth width then
    some (lumaLane lut scalingShift minValue maxLuma
      (lumaTailBuffer width (srcY y) (x - safeWidth width)) (srcY y x)
      (noiseY (y + startHeight) x))
  else none

/-! ## Shared lemmas about the kernels' lane arithmetic -/

theorem lt_writtenWidth_of_lt {w x : Nat} (hx : x < w) : x < writtenWidth w := by
  unfold writtenWidth safeWidth
  split_ifs <;> omega

theorem lumaTailBuffer_valid {w x : Nat} (row : Nat → Nat)
    (hge : safeWidth w ≤ x) (hx : x < w) :
    lumaTailBuffer w row (x - safeWidth w) = row x := by
  unfold lumaTailBuffer
  rw [if_pos (show x - safeWidth w < w - safeWidth w by
    unfold safeWidth at *; omega)]
  congr 1
  omega

/-- `ScaleNoise` on an 8-bit-depth lane: with a LUT value in [0, 255], a
scaling shift in [8, 11] and an int8 noise sample, the 16-bit lane shift and
the `_mm_mulhrs_epi16` wraparound vanish, leaving the spec's Q15 rounding
multiply of the noise by `scale << (15 - scaling_shift)`; the result lies
in [-128, 128]. -/
theorem scaleNoise_eq_q15 {nz L : Int} {shift : Nat}
    (h8 : 8 ≤ shift) (h11 : shift ≤ 11) (hL0 : 0 ≤ L) (hL1 : L ≤ 255)
    (hn0 : -128 ≤ nz) (hn1 : nz ≤ 127) :
    scaleNoise nz L shift = q15RoundMultiply nz (L * 2 ^ (15 - shift)) ∧
    -128 ≤ scaleNoise nz L shift ∧ scaleNoise nz L shift ≤ 128 := by
  have hpow : 1 ≤ (2:Int) ^ (15 - shift) ∧ (2:Int) ^ (15 - shift) ≤ 128 := by
    interval_cases shift <;> norm_num
  have hfac0 : 0 ≤ L * 2 ^ (15 - shift) := by nlinarith [hpow.1]
  have hfac1 : L * 2 ^ (15 - shift) ≤ 32640 := by nlinarith [hpow.1, hpow.2]
  have hprod := mul_abs_bounds (A := 128) (B := 32640)
    (by omega : -(128:Int) ≤ nz) (by omega)
    (by omega : -(32640:Int) ≤ L * 2 ^ (15 - shift)) (by omega)
  unfold scaleNoise
  rw [wrap16_eq_self (v := L * 2 ^ (15 - shift)) (by omega) (by omega)]
  unfold mulhrs asr q15RoundMultiply
  have h215 : (2:Int) ^ 15 = 32768 := by norm_num
  rw [h215]
  rw [wrap16_eq_self (by omega) (by omega)]
  exact ⟨rfl, by omega, by omega⟩

/-- The shared tail of the film-grain lane pipeline: adding the scaled noise
to the original sample in a 16-bit lane, clipping to [min, max] with
0 <= min <= max <= 255, and narrowing with `_mm_packus_epi16` equals the
unwrapped clip of sample + Q15-scaled noise. -/
theorem grainLane_eq_spec {lut : Int → Int} {shift : Nat}
    {minv maxv orig nz : Int} (idx : Int)
    (h8 : 8 ≤ shift) (h11 : shift ≤ 11)
    (hlut : 0 ≤ lut idx ∧ lut idx ≤ 255)
    (ho0 : 0 ≤ orig) (ho1 : orig ≤ 255)
    (hn0 : -128 ≤ nz) (hn1 : nz ≤ 127)
    (hm0 : 0 ≤ minv) (hmm : minv ≤ maxv) (hm1 : maxv ≤ 255) :
    satu8 (clip3 (wrap16 (orig + scaleNoise nz (lut idx) shift)) minv maxv)
      = clip3 (orig + q15RoundMultiply nz (lut idx * 2 ^ (15 - shift)))
          minv maxv := by
  obtain ⟨heq, hb0, hb1⟩ := scaleNoise_eq_q15 h8 h11 hlut.1 hlut.2 hn0 hn1
  rw [wrap16_eq_self (v := orig + scaleNoise nz (lut idx) shift) (by omega)
    (by omega)]
  have hcb := clip3_bounds (orig + scaleNoise nz (lut idx) shift)
    (show minv ≤ maxv by omega)
  rw [satu8_eq_self (by omega) (by omega), heq]

/-! ## Claim C2: the luma blend formula -/

/-- Helper shared by C2 and C8: the luma kernel's stored value at every
valid cell equals the per-sample formula. -/
theorem lumaKernel_formula (lut : Int → Int) (scalingShift : Nat)
    (minValue maxLuma : Int) (width height startHeight : Nat)
    (srcY : Nat → Nat → Nat) (noiseY : Nat → Nat → Int)
    (h8 : 8 ≤ scalingShift) (h11 : scalingShift ≤ 11)
    (hlut : ∀ i, 0 ≤ lut i ∧ lut i ≤ 255)
    (hsrc : ∀ r c, srcY r c ≤ 255)
    (hnz : ∀ r c, -128 ≤ noiseY r c ∧ noiseY r c ≤ 127)
    (hm0 : 0 ≤ minValue) (hmm : minValue ≤ maxLuma) (hm1 : maxLuma ≤ 255)
    (y x : Nat) (hy : y < max height 1) (hx : x < width) :
    blendNoiseWithImageLuma8 lut scalingShift minValue maxLuma width height
        startHeight srcY noiseY y x
      = some (clip3 ((srcY y x : Int)
          + q15RoundMultiply (noiseY (y + startHeight) x)
            (getScalingFactors8 lut (srcY y x) * 2 ^ (15 - scalingShift)))
          minValue maxLuma) := by
  have hlane : lumaLane lut scalingShift minValue maxLuma (srcY y x)
      (srcY y x) (noiseY (y + startHeight) x)
      = clip3 ((srcY y x : Int)
          + q15RoundMultiply (noiseY (y + startHeight) x)
            (getScalingFactors8 lut (srcY y x) * 2 ^ (15 - scalingShift)))
          minValue maxLuma := by
    unfold lumaLane getScalingFactors8
    exact grainLane_eq_spec ((srcY y x : Nat) : Int) h8 h11 (hlut _)
      (by positivity) (by exact_mod_cast hsrc y x)
      (hnz _ _).1 (hnz _ _).2 hm0 hmm hm1
  unfold blendNoiseWithImageLuma8
  rw [if_neg (by omega : ¬ max height 1 ≤ y)]
  by_cases hxs : x < safeWidth width
  · rw [if_pos hxs, hlane]
  · rw [if_neg hxs, if_pos (lt_writtenWidth_of_lt hx),
      lumaTailBuffer_valid (srcY y) (by omega) hx, hlane]

/-- C2: for every luma sample (y, x) of the processed region,
`BlendNoiseWithImageLuma` (8 bpp) stores
`clip(sample + round_multiply(noise, LUT(sample) << (15 - scaling_shift)),
min_value, max_luma)`, where `round_multiply` is the Q15 rounding multiply,
`LUT(sample)` is the bit-depth-8 scaling-LUT evaluation (a direct lookup)
and `scaling_shift` is in [8, 11]. -/
theorem luma_blend_formula (lut : Int → Int) (scalingShift : Nat)
    (minValue maxLuma : Int) (width height startHeight : Nat)
    (srcY : Nat → Nat → Nat) (noiseY : Nat → Nat → Int)
    (h8 : 8 ≤ scalingShift) (h11 : scalingShift ≤ 11)
    (hlut : ∀ i, 0 ≤ lut i ∧ lut i ≤ 255)
    (hsrc : ∀ r c, srcY r c ≤ 255)
    (hnz : ∀ r c, -128 ≤ noiseY r c ∧ noiseY r c ≤ 127)
    (hm0 : 0 ≤ minValue) (hmm : minValue ≤ maxLuma) (hm1 : maxLuma ≤ 255)
    (y x : Nat) (hy : y < height) (hx : x < width) :
    blendNoiseWithImageLuma8 lut scalingShift minValue maxLuma width height
        startHeight srcY noiseY y x
      = some (clip3 ((srcY y x : Int)
          + q15RoundMultiply (noiseY (y + startHeight) x)
            (getScalingFactors8 lut (srcY y x) * 2 ^ (15 - scalingShift)))
          minValue maxLuma) :=
  lumaKernel_formula lut scalingShift minValue maxLuma width height
    startHeight srcY noiseY h8 h11 hlut hsrc hnz hm0 hmm hm1 y x
    (by omega) hx

/-- Witness for C2 on a 4x1 block (the right-edge path), constant source
100, constant noise 64, constant LUT 20, scaling shift 8. -/
theorem luma_blend_formula_witness :
    blendNoiseWithImageLuma8 (fun _ => 20) 8 0 255 4 1 0 (fun _ _ => 100)
        (fun _ _ => 64) 0 1
      = some (clip3 (((100 : Nat) : Int)
          + q15RoundMultiply 64 (getScalingFactors8 (fun _ => 20)
              ((100 : Nat) : Int) * 2 ^ (15 - 8))) 0 255) :=
  luma_blend_formula (fun _ => 20) 8 0 255 4 1 0 (fun _ _ => 100)
    (fun _ _ => 64) (by decide) (by decide)
    (fun i => by constructor <;> norm_num)
    (fun r c => by norm_num)
    (fun r c => by constructor <;> norm_num)
    (by decide) (by decide) (by decide) 0 1 (by decide) (by decide)

/-! ## The chroma blend kernels (film_grain_sse4.cc, 8 bpp) -/

/-- Chroma plane extent: `(length + subsampling) >> subsampling`. -/
def subsampled (len ss : Nat) : Nat := (len + ss) / 2 ^ ss

/-- Lane j of the 16-byte `luma_buffer` of the chroma kernels' right-edge
iteration: `memset` to 0, then `memcpy` of the `width - luma_x` trailing
real luma samples, then the last valid luma sample replicated at index
`width - luma_x`, where `luma_x = safe_chroma_width << subsampling_x`. -/
def chromaTailLumaBuffer (w ssx : Nat) (rowY : Nat → Nat) (j : Nat) : Nat :=
  if j < w - safeWidth (subsampled w ssx) * 2 ^ ssx then
    rowY (safeWidth (subsampled w ssx) * 2 ^ ssx + j)
  else if j = w - safeWidth (subsampled w ssx) * 2 ^ ssx then rowY (w - 1)
  else 0

/-- Lane i of the 8-byte `chroma_buffer` of the multiplier-mode kernel's
right-edge iteration: the trailing real chroma samples, then the last
valid chroma sample replicated at index `chroma_width - x`.  The remaining
lanes are uninitialized in a regular build (zeroed under MSAN); they are
modelled as 0, and no theorem below depends on their value. -/
def chromaTailChromaBuffer (cw : Nat) (rowC : Nat → Nat) (i : Nat) : Nat :=
  if i < cw - safeWidth cw then rowC (safeWidth cw + i)
  else if i = cw - safeWidth cw then rowC (cw - 1)
  else 0

/-- One lane of `BlendChromaValsNoCfl`: `_mm_madd_epi16` of (average_luma,
orig) with the packed (luma_multiplier, chroma_multiplier) 16-bit pair,
accumulated in a 32-bit lane, `_mm_srai_epi32` by 6, `_mm_packs_epi32` to
int16, a 16-bit add of the offset, `_mm_packus_epi16` to form the LUT
index byte, then the shared scale-noise-and-add tail. -/
def blendChromaValsNoCfl (lut : Int → Int) (lumaMult chromaMult offset : Int)
    (scalingShift : Nat) (averageLuma orig noisev : Int) : Int :=
  wrap16 (orig + scaleNoise noisev
    (getScalingFactors8 lut
      (satu8 (wrap16 (sat16 (asr (wrap32 (averageLuma * wrap16 lumaMult
        + orig * wrap16 chromaMult)) 6) + wrap16 offset))))
    scalingShift)

/-- One lane of `BlendChromaValsWithCfl<8, int8_t, uint8_t>`: look up the
scaling factor at the stored average-luma byte, scale the noise, and add
it to the original chroma sample in a 16-bit lane. -/
def blendChromaValsWithCfl (lut : Int → Int) (scalingShift : Nat)
    (averageLumaByte orig noisev : Int) : Int :=
  wrap16 (orig + scaleNoise noisev (getScalingFactors8 lut averageLumaByte)
    scalingShift)

/-- `BlendChromaPlaneWithCfl_SSE4_1<8, int8_t, uint8_t>` as a map from a
destination chroma cell to the value stored there.  Chroma row y reads
luma row `y << subsampling_y` (the luma cursor advances by
`source_stride_y << subsampling_y` per chroma row) and noise row
`y + (start_height >> subsampling_y)`.  The average-luma lanes pass
through `StoreUnsigned` (`_mm_packus_epi16`) before indexing the LUT.  The
right-edge iteration (run when the chroma width is not a multiple of 8)
takes its average-luma inputs from the padded luma buffer but loads the
original chroma and the noise from the real rows, and stores all 8
lanes. -/
def blendChromaPlaneWithCfl8 (lut : Int → Int) (minValue maxChroma : Int)
    (width height startHeight ssx ssy scalingShift : Nat)
    (srcY srcC : Nat → Nat → Nat) (noise : Nat → Nat → Int)
    (y x : Nat) : Option Int :=
  if max (subsampled height ssy) 1 ≤ y then none
  else if x < safeWidth (subsampled width ssx) then
    some (satu8 (clip3 (blendChromaValsWithCfl lut scalingShift
      (satu8 (getAverageLuma (srcY (y * 2 ^ ssy)) ssx x))
      (srcC y x) (noise (y + startHeight / 2 ^ ssy) x)) minValue maxChroma))
  else if x < writtenWidth (subsampled width ssx) then
    some (satu8 (clip3 (blendChromaValsWithCfl lut scalingShift
      (satu8 (getAverageLuma
        (chromaTailLumaBuffer width ssx (srcY (y * 2 ^ ssy))) ssx
        (x - safeWidth (subsampled width ssx))))
      (srcC y x) (noise (y + startHeight / 2 ^ ssy) x)) minValue maxChroma))
  else none

/-- `BlendChromaPlane8bpp_SSE4_1` (multiplier mode) as a map from a
destination chroma cell to the value stored there.  Same loop structure as
the CFL kernel; the right-edge iteration additionally takes the original
chroma sample from the padded chroma buffer. -/
def blendChromaPlane8bpp (lut : Int → Int) (scalingShift : Nat)
    (chromaOffset chromaMult lumaMult minValue maxChroma : Int)
    (width height startHeight ssx ssy : Nat)
    (srcY srcC : Nat → Nat → Nat) (noise : Nat → Nat → Int)
    (y x : Nat) : Option Int :=
  if max (subsampled height ssy) 1 ≤ y then none
  else if x < safeWidth (subsampled width ssx) then
    some (satu8 (clip3 (blendChromaValsNoCfl lut lumaMult chromaMult
      chromaOffset scalingShift
      (getAverageLuma (srcY (y * 2 ^ ssy)) ssx x)
      (srcC y x) (noise (y + startHeight / 2 ^ ssy) x)) minValue maxChroma))
  else if x < writtenWidth (subsampled width ssx) then
    some (satu8 (clip3 (blendChromaValsNoCfl lut lumaMult chromaMult
      chromaOffset scalingShift
      (getAverageLuma
        (chromaTailLumaBuffer width ssx (srcY (y * 2 ^ ssy))) ssx
        (x - safeWidth (subsampled width ssx)))
      (chromaTailChromaBuffer (subsampled width ssx) (srcC y)
        (x - safeWidth (subsampled width ssx)))
      (noise (y + startHeight / 2 ^ ssy) x)) minValue maxChroma))
  else none

/-- The two chroma planes. -/
inductive ChromaPlane
  | u
  | v

/-- The film-grain parameter fields consumed by the multiplier-mode chroma
kernel. -/
structure FilmGrainParams where
  chromaScaling : Nat
  uOffset : Int
  vOffset : Int
  uMultiplier : Int
  vMultiplier : Int
  uLumaMultiplier : Int
  vLumaMultiplier : Int

/-- `BlendNoiseWithImageChroma8bpp_SSE4_1` (multiplier mode): select the
{offset, luma_multiplier, multiplier} triple of the requested plane and
run the shared multiplier-mode plane kernel on that plane's noise
image. -/
def blendNoiseWithImageChroma8 (plane : ChromaPlane) (p : FilmGrainParams)
    (noiseImage : ChromaPlane → Nat → Nat → Int) (minValue maxChroma : Int)
    (width height startHeight ssx ssy : Nat) (lut : Int → Int)
    (srcY srcC : Nat → Nat → Nat) (y x : Nat) : Option Int :=
  blendChromaPlane8bpp lut p.chromaScaling
    (match plane with | .u => p.uOffset | .v => p.vOffset)
    (match plane with | .u => p.uMultiplier | .v => p.vMultiplier)
    (match plane with | .u => p.uLumaMultiplier | .v => p.vLumaMultiplier)
    minValue maxChroma width height startHeight ssx ssy srcY srcC
    (noiseImage plane) y x

/-! ## Claim C3: multiplier-mode LUT index and U/V plane selection -/

/-- Lane lemma for C3: with in-range multipliers, offset and samples, the
multiplier-mode lane equals the CFL lane body applied at the merged index
`clip(((average_luma * luma_multiplier + chroma * chroma_multiplier) >> 6)
+ offset, 0, 255)`. -/
theorem blendChromaValsNoCfl_eq {lut : Int → Int} {lm cm off : Int}
    {shift : Nat} {avg orig nz : Int}
    (hlm0 : -128 ≤ lm) (hlm1 : lm ≤ 127)
    (hcm0 : -128 ≤ cm) (hcm1 : cm ≤ 127)
    (hoff0 : -256 ≤ off) (hoff1 : off ≤ 255)
    (ha0 : 0 ≤ avg) (ha1 : avg ≤ 255)
    (ho0 : 0 ≤ orig) (ho1 : orig ≤ 255) :
    blendChromaValsNoCfl lut lm cm off shift avg orig nz
      = blendChromaValsWithCfl lut shift
          (clip3 ((avg * lm + orig * cm) / 64 + off) 0 255) orig nz := by
  have h1 := mul_abs_bounds (A := 255) (B := 128) (by omega) ha1 hlm0
    (by omega)
  have h2 := mul_abs_bounds (A := 255) (B := 128) (by omega) ho1 hcm0
    (by omega)
  unfold blendChromaValsNoCfl blendChromaValsWithCfl
  rw [wrap16_eq_self (v := lm) (by omega) (by omega),
    wrap16_eq_self (v := cm) (by omega) (by omega),
    wrap16_eq_self (v := off) (by omega) (by omega),
    wrap32_eq_self (v := avg * lm + orig * cm) (by omega) (by omega)]
  have hshr : -1020 ≤ asr (avg * lm + orig * cm) 6
      ∧ asr (avg * lm + orig * cm) 6 ≤ 1020 := by
    unfold asr; omega
  rw [sat16_eq_self (by omega) (by omega),
    wrap16_eq_self (v := asr (avg * lm + orig * cm) 6 + off) (by omega)
      (by omega),
    clip3_eq_satu8]
  unfold asr
  norm_num

/-- C3: in multiplier mode, (i) each lane's LUT index is
`clip(((average_luma * luma_multiplier + chroma * chroma_multiplier) >> 6)
+ offset, 0, 255)` — not the raw chroma sample — and the rest of the lane
is the same scale-noise-and-add body as the CFL lane at that index; and
(ii) the U and V kernels are one shared kernel body differing only in
which {offset, luma_multiplier, multiplier} triple (and noise plane) is
selected: if the V-plane triple of `q` equals the U-plane triple of `p`
(same chroma_scaling, same noise data), the two calls store identical
values everywhere. -/
theorem chroma_multiplier_index_and_plane_selection :
    (∀ (lut : Int → Int) (lm cm off : Int) (shift : Nat) (avg orig nz : Int),
      -128 ≤ lm → lm ≤ 127 → -128 ≤ cm → cm ≤ 127 → -256 ≤ off →
      off ≤ 255 → 0 ≤ avg → avg ≤ 255 → 0 ≤ orig → orig ≤ 255 →
      blendChromaValsNoCfl lut lm cm off shift avg orig nz
        = blendChromaValsWithCfl lut shift
            (clip3 ((avg * lm + orig * cm) / 64 + off) 0 255) orig nz) ∧
    (∀ (p q : FilmGrainParams)
      (noiseImage : ChromaPlane → Nat → Nat → Int) (minValue maxChroma : Int)
      (width height startHeight ssx ssy : Nat) (lut : Int → Int)
      (srcY srcC : Nat → Nat → Nat) (y x : Nat),
      p.uOffset = q.vOffset → p.uMultiplier = q.vMultiplier →
      p.uLumaMultiplier = q.vLumaMultiplier →
      p.chromaScaling = q.chromaScaling →
      noiseImage ChromaPlane.u = noiseImage ChromaPlane.v →
      blendNoiseWithImageChroma8 ChromaPlane.u p noiseImage minValue
          maxChroma width height startHeight ssx ssy lut srcY srcC y x
        = blendNoiseWithImageChroma8 ChromaPlane.v q noiseImage minValue
            maxChroma width height startHeight ssx ssy lut srcY srcC y x) := by
  constructor
  · intro lut lm cm off shift avg orig nz h1 h2 h3 h4 h5 h6 h7 h8 h9 h10
    exact blendChromaValsNoCfl_eq h1 h2 h3 h4 h5 h6 h7 h8 h9 h10
  · intro p q noiseImage minValue maxChroma width height startHeight ssx ssy
      lut srcY srcC y x hoff hmul hlmul hscal hnz
    unfold blendNoiseWithImageChroma8
    rw [hoff, hmul, hlmul, hscal, hnz]

/-- Witness for C3: part (i) at concrete lane inputs, part (ii) at two
parameter records whose selected triples agree. -/
theorem chroma_multiplier_index_and_plane_selection_witness :
    blendChromaValsNoCfl (fun _ => 20) 64 (-64) 10 8 200 100 50
      = blendChromaValsWithCfl (fun _ => 20) 8
          (clip3 ((200 * 64 + 100 * (-64)) / 64 + 10) 0 255) 100 50 ∧
    blendNoiseWithImageChroma8 ChromaPlane.u
        ⟨8, 7, 1, 8, 2, 9, 3⟩ (fun _ _ _ => 3) 0 255 2 2 0 1 1
        (fun _ => 20) (fun _ _ => 100) (fun _ _ => 50) 0 0
      = blendNoiseWithImageChroma8 ChromaPlane.v
          ⟨8, 1, 7, 2, 8, 3, 9⟩ (fun _ _ _ => 3) 0 255 2 2 0 1 1
          (fun _ => 20) (fun _ _ => 100) (fun _ _ => 50) 0 0 :=
  ⟨chroma_multiplier_index_and_plane_selection.1 (fun _ => 20) 64 (-64) 10 8
      200 100 50 (by decide) (by decide) (by decide) (by decide) (by decide)
      (by decide) (by decide) (by decide) (by decide) (by decide),
    chroma_multiplier_index_and_plane_selection.2 ⟨8, 7, 1, 8, 2, 9, 3⟩
      ⟨8, 1, 7, 2, 8, 3, 9⟩ (fun _ _ _ => 3) 0 255 2 2 0 1 1 (fun _ => 20)
      (fun _ _ => 100) (fun _ _ => 50) 0 0 rfl rfl rfl rfl rfl⟩

/-! ## Claim C6: every stored sample lies in the valid 8-bit pixel range -/

/-- C6: for all inputs to every kernel modelled here (the distance-weighted
blend and the three film-grain blends), every stored output sample lies in
the valid 8-bit range [0, 255] — each store goes through a saturating
narrow (`vqmovun_s16` / `_mm_packus_epi16`) even when the pre-clamp sum
would leave the range. -/
theorem outputs_within_pixel_range
    (w0 w1 : Int) (bw bh : Nat) (pred0 pred1 : Nat → Nat → Int)
    (lut : Int → Int) (shift : Nat) (minv maxv : Int) (lw lh lsh : Nat)
    (srcY srcC : Nat → Nat → Nat) (noiseY noiseC : Nat → Nat → Int)
    (cminv cmaxv : Int) (cw ch csh cssx cssy cshift : Nat)
    (coff ccm clm : Int) (y x : Nat) (v : Int)
    (h : distanceWeightedBlend w0 w1 bw bh pred0 pred1 y x = some v
      ∨ blendNoiseWithImageLuma8 lut shift minv maxv lw lh lsh srcY noiseY
          y x = some v
      ∨ blendChromaPlaneWithCfl8 lut cminv cmaxv cw ch csh cssx cssy cshift
          srcY srcC noiseC y x = some v
      ∨ blendChromaPlane8bpp lut cshift coff ccm clm cminv cmaxv cw ch csh
          cssx cssy srcY srcC noiseC y x = some v) :
    0 ≤ v ∧ v ≤ 255 := by
  rcases h with h | h | h | h
  · unfold distanceWeightedBlend at h
    split_ifs at h
    all_goals first
      | exact Option.noConfusion h
      | (injection h with h; rw [← h]; unfold blendSample;
          exact satu8_bounds _)
  · unfold blendNoiseWithImageLuma8 at h
    split_ifs at h
    all_goals first
      | exact Option.noConfusion h
      | (injection h with h; rw [← h]; unfold lumaLane;
          exact satu8_bounds _)
  · unfold blendChromaPlaneWithCfl8 at h
    split_ifs at h
    all_goals first
      | exact Option.noConfusion h
      | (injection h with h; rw [← h]; exact satu8_bounds _)
  · unfold blendChromaPlane8bpp at h
    split_ifs at h
    all_goals first
      | exact Option.noConfusion h
      | (injection h with h; rw [← h]; exact satu8_bounds _)

/-- Witness for C6: the blend kernel on a 1x1 block with overflowing inputs
(predictor 32767 with weight 16 would reach 524272 before the shift) still
stores a value in [0, 255]. -/
theorem outputs_within_pixel_range_witness : (0:Int) ≤ 255 ∧ (255:Int) ≤ 255 :=
  outputs_within_pixel_range 16 0 1 1 (fun _ _ => 32767) (fun _ _ => 0)
    (fun _ => 0) 8 0 255 1 1 0 (fun _ _ => 0) (fun _ _ => 0)
    (fun _ _ => 0) (fun _ _ => 0) 0 255 1 1 0 0 0 8 0 0 0 0 0 255
    (Or.inl (by decide))

/-! ## Claim C9: what the right-edge iteration stores (corrected) -/

/-- Counterexample to C9 as stated: with width 1, the luma kernel's
right-edge iteration stores a full 8-lane vector, so the destination
sample at column 1 — at or beyond the valid width — is overwritten
(with value 0 here), not left unchanged. -/
theorem tail_store_writes_past_valid_width :
    blendNoiseWithImageLuma8 (fun _ => 0) 8 0 255 1 1 0 (fun _ _ => 0)
      (fun _ _ => 0) 0 1 = some 0 := by decide

/-- C9 (amended): the right-edge iteration copies the trailing real
samples to a scratch buffer, replicates the last valid sample, computes a
full lane, and stores all 8 lanes; a destination cell is left unchanged
exactly when its row is beyond the processed height or its column is at or
beyond `writtenWidth` (the 8-aligned end of the row's stores), so columns
between the valid width and that boundary are overwritten.  Stated for the
luma kernel and the CFL chroma kernel. -/
theorem tail_store_written_domain
    (lut : Int → Int) (shift : Nat) (minv maxv : Int) (w h sh : Nat)
    (srcY srcC : Nat → Nat → Nat) (noiseY noiseC : Nat → Nat → Int)
    (cminv cmaxv : Int) (cw ch csh ssx ssy cshift : Nat) (y x : Nat) :
    (blendNoiseWithImageLuma8 lut shift minv maxv w h sh srcY noiseY y x
        = none ↔ (max h 1 ≤ y ∨ writtenWidth w ≤ x)) ∧
    (blendChromaPlaneWithCfl8 lut cminv cmaxv cw ch csh ssx ssy cshift
        srcY srcC noiseC y x = none
      ↔ (max (subsampled ch ssy) 1 ≤ y
          ∨ writtenWidth (subsampled cw ssx) ≤ x)) := by
  constructor
  · unfold blendNoiseWithImageLuma8 writtenWidth safeWidth
    split_ifs <;> simp_all <;> omega
  · unfold blendChromaPlaneWithCfl8 writtenWidth safeWidth
    split_ifs <;> simp_all <;> omega

/-! ## Claim C8: the padded vectorized right edge refines a scalar loop -/

/-- Modelled from the spec (refinement reference, 4.4): the strictly
per-sample scalar luma blend over only the valid columns. -/
def lumaScalarRef (lut : Int → Int) (scalingShift : Nat)
    (minValue maxLuma : Int) (startHeight : Nat)
    (srcY : Nat → Nat → Nat) (noiseY : Nat → Nat → Int) (y x : Nat) : Int :=
  clip3 ((srcY y x : Int) + q15RoundMultiply (noiseY (y + startHeight) x)
    (getScalingFactors8 lut (srcY y x) * 2 ^ (15 - scalingShift)))
    minValue maxLuma

/-- Modelled from the spec (refinement reference, 4.5/4.6): the strictly
per-sample scalar multiplier-mode chroma blend over only the valid
columns.  With horizontal subsampling the average luma is the rounded
pairwise average of the co-located luma samples, the second index clamped
to the last valid luma column (the spec's replication of the last valid
sample at an odd right edge); the LUT index is the merged clipped linear
combination of 4.6 and the combination follows 4.4. -/
def chromaScalarRefNoCfl (lut : Int → Int) (scalingShift : Nat)
    (chromaOffset chromaMult lumaMult minValue maxChroma : Int)
    (width startHeight ssx ssy : Nat) (srcY srcC : Nat → Nat → Nat)
    (noise : Nat → Nat → Int) (y x : Nat) : Int :=
  let avgLuma : Nat :=
    if ssx = 1 then
      (srcY (y * 2 ^ ssy) (2 * x)
        + srcY (y * 2 ^ ssy) (min (2 * x + 1) (width - 1)) + 1) / 2
    else srcY (y * 2 ^ ssy) x
  clip3 ((srcC y x : Int)
    + q15RoundMultiply (noise (y + startHeight / 2 ^ ssy) x)
      (getScalingFactors8 lut
        (clip3 (((avgLuma : Int) * lumaMult + (srcC y x : Int) * chromaMult)
          / 64 + chromaOffset) 0 255) * 2 ^ (15 - scalingShift)))
    minValue maxChroma

theorem getAverageLuma_zero (row : Nat → Nat) (x : Nat) :
    getAverageLuma row 0 x = row x := by
  simp [getAverageLuma]

theorem getAverageLuma_one (row : Nat → Nat) (x : Nat)
    (h1 : row (2 * x) ≤ 255) (h2 : row (2 * x + 1) ≤ 255) :
    getAverageLuma row 1 x = (row (2 * x) + row (2 * x + 1) + 1) / 2 := by
  unfold getAverageLuma
  norm_num
  omega

theorem chromaTailChromaBuffer_valid {cw x : Nat} (rowC : Nat → Nat)
    (hge : safeWidth cw ≤ x) (hx : x < cw) :
    chromaTailChromaBuffer cw rowC (x - safeWidth cw) = rowC x := by
  unfold chromaTailChromaBuffer
  rw [if_pos (show x - safeWidth cw < cw - safeWidth cw by
    unfold safeWidth at *; omega)]
  congr 1
  omega

theorem chromaTailLumaBuffer_zero {w x : Nat} (row : Nat → Nat)
    (hge : safeWidth (subsampled w 0) ≤ x) (hx : x < subsampled w 0) :
    chromaTailLumaBuffer w 0 row (x - safeWidth (subsampled w 0)) = row x := by
  unfold chromaTailLumaBuffer subsampled safeWidth at *
  rw [if_pos (by omega)]
  congr 1
  omega

/-- The two luma samples a tail lane pairs for its average: both land on
the real samples, except that the second index of the last valid column of
an odd-width plane lands on the replicated last valid sample - which is
exactly `min (2x + 1, width - 1)`. -/
theorem chromaTailLumaBuffer_pair {w x : Nat} (row : Nat → Nat)
    (hge : safeWidth (subsampled w 1) ≤ x) (hx : x < subsampled w 1) :
    chromaTailLumaBuffer w 1 row (2 * (x - safeWidth (subsampled w 1)))
        = row (2 * x) ∧
    chromaTailLumaBuffer w 1 row (2 * (x - safeWidth (subsampled w 1)) + 1)
        = row (min (2 * x + 1) (w - 1)) := by
  unfold chromaTailLumaBuffer subsampled safeWidth at *
  constructor
  · rw [if_pos (by omega)]
    congr 1
    omega
  · by_cases h2 : 2 * x + 1 < w
    · rw [if_pos (by omega), min_eq_left (by omega)]
      congr 1
      omega
    · rw [if_neg (by omega), if_pos (by omega), min_eq_right (by omega)]

/-- The multiplier-mode lane, clipped and narrowed, equals the spec's
per-sample formula at the merged index. -/
theorem noCflLane_eq_spec {lut : Int → Int} {lm cm off : Int} {shift : Nat}
    {minv maxv avg orig nz : Int}
    (h8 : 8 ≤ shift) (h11 : shift ≤ 11)
    (hlut : ∀ i, 0 ≤ lut i ∧ lut i ≤ 255)
    (hlm0 : -128 ≤ lm) (hlm1 : lm ≤ 127)
    (hcm0 : -128 ≤ cm) (hcm1 : cm ≤ 127)
    (hoff0 : -256 ≤ off) (hoff1 : off ≤ 255)
    (ha0 : 0 ≤ avg) (ha1 : avg ≤ 255)
    (ho0 : 0 ≤ orig) (ho1 : orig ≤ 255)
    (hn0 : -128 ≤ nz) (hn1 : nz ≤ 127)
    (hm0 : 0 ≤ minv) (hmm : minv ≤ maxv) (hm1 : maxv ≤ 255) :
    satu8 (clip3 (blendChromaValsNoCfl lut lm cm off shift avg orig nz)
        minv maxv)
      = clip3 (orig + q15RoundMultiply nz
          (getScalingFactors8 lut
            (clip3 ((avg * lm + orig * cm) / 64 + off) 0 255)
            * 2 ^ (15 - shift))) minv maxv := by
  rw [blendChromaValsNoCfl_eq hlm0 hlm1 hcm0 hcm1 hoff0 hoff1 ha0 ha1 ho0 ho1]
  unfold blendChromaValsWithCfl getScalingFactors8
  exact grainLane_eq_spec _ h8 h11 (hlut _) ho0 ho1 hn0 hn1 hm0 hmm hm1

/-- Helper shared with C8: the multiplier-mode chroma kernel's stored value
at every valid chroma cell equals the scalar per-sample reference, for any
chroma width that is not a multiple of 8. -/
theorem noCflKernel_formula (lut : Int → Int) (scalingShift : Nat)
    (chromaOffset chromaMult lumaMult minValue maxChroma : Int)
    (width height startHeight ssx ssy : Nat)
    (srcY srcC : Nat → Nat → Nat) (noise : Nat → Nat → Int)
    (h8 : 8 ≤ scalingShift) (h11 : scalingShift ≤ 11)
    (hlut : ∀ i, 0 ≤ lut i ∧ lut i ≤ 255)
    (hlm0 : -128 ≤ lumaMult) (hlm1 : lumaMult ≤ 127)
    (hcm0 : -128 ≤ chromaMult) (hcm1 : chromaMult ≤ 127)
    (hoff0 : -256 ≤ chromaOffset) (hoff1 : chromaOffset ≤ 255)
    (hsrcY : ∀ r c, srcY r c ≤ 255) (hsrcC : ∀ r c, srcC r c ≤ 255)
    (hnz : ∀ r c, -128 ≤ noise r c ∧ noise r c ≤ 127)
    (hm0 : 0 ≤ minValue) (hmm : minValue ≤ maxChroma) (hm1 : maxChroma ≤ 255)
    (hssx : ssx ≤ 1) (hssy : ssy ≤ 1)
    (hcw : subsampled width ssx % 8 ≠ 0)
    (y x : Nat) (hy : y < max (subsampled height ssy) 1)
    (hx : x < subsampled width ssx) :
    blendChromaPlane8bpp lut scalingShift chromaOffset chromaMult lumaMult
        minValue maxChroma width height startHeight ssx ssy srcY srcC noise
        y x
      = some (chromaScalarRefNoCfl lut scalingShift chromaOffset chromaMult
          lumaMult minValue maxChroma width startHeight ssx ssy srcY srcC
          noise y x) := by
  interval_cases ssx
  · by_cases hxs : x < safeWidth (subsampled width 0)
    · unfold blendChromaPlane8bpp
      rw [if_neg (by omega), if_pos hxs]
      refine congrArg some ?_
      unfold chromaScalarRefNoCfl
      dsimp only
      rw [if_neg (by norm_num : ¬ (0:Nat) = 1), getAverageLuma_zero]
      exact noCflLane_eq_spec h8 h11 hlut hlm0 hlm1 hcm0 hcm1 hoff0 hoff1
        (Nat.cast_nonneg _) (by exact_mod_cast hsrcY _ _)
        (Nat.cast_nonneg _) (by exact_mod_cast hsrcC _ _)
        (hnz _ _).1 (hnz _ _).2 hm0 hmm hm1
    · unfold blendChromaPlane8bpp
      rw [if_neg (by omega), if_neg hxs, if_pos (lt_writtenWidth_of_lt hx)]
      refine congrArg some ?_
      unfold chromaScalarRefNoCfl
      dsimp only
      rw [if_neg (by norm_num : ¬ (0:Nat) = 1), getAverageLuma_zero,
        chromaTailLumaBuffer_zero (srcY (y * 2 ^ ssy)) (by omega) hx,
        chromaTailChromaBuffer_valid (srcC y) (by omega) hx]
      exact noCflLane_eq_spec h8 h11 hlut hlm0 hlm1 hcm0 hcm1 hoff0 hoff1
        (Nat.cast_nonneg _) (by exact_mod_cast hsrcY _ _)
        (Nat.cast_nonneg _) (by exact_mod_cast hsrcC _ _)
        (hnz _ _).1 (hnz _ _).2 hm0 hmm hm1
  · by_cases hxs : x < safeWidth (subsampled width 1)
    · unfold blendChromaPlane8bpp
      rw [if_neg (by omega), if_pos hxs]
      refine congrArg some ?_
      unfold chromaScalarRefNoCfl
      dsimp only
      rw [if_pos (rfl : (1:Nat) = 1)]
      have hmin : min (2 * x + 1) (width - 1) = 2 * x + 1 := by
        unfold subsampled safeWidth at hxs
        unfold subsampled at hcw
        omega
      rw [hmin,
        getAverageLuma_one (srcY (y * 2 ^ ssy)) x (hsrcY _ _) (hsrcY _ _)]
      have h255 : (srcY (y * 2 ^ ssy) (2 * x)
          + srcY (y * 2 ^ ssy) (2 * x + 1) + 1) / 2 ≤ 255 := by
        have hu := hsrcY (y * 2 ^ ssy) (2 * x)
        have hv := hsrcY (y * 2 ^ ssy) (2 * x + 1)
        omega
      exact noCflLane_eq_spec h8 h11 hlut hlm0 hlm1 hcm0 hcm1 hoff0 hoff1
        (Nat.cast_nonneg _) (by exact_mod_cast h255)
        (Nat.cast_nonneg _) (by exact_mod_cast hsrcC _ _)
        (hnz _ _).1 (hnz _ _).2 hm0 hmm hm1
    · unfold blendChromaPlane8bpp
      rw [if_neg (by omega), if_neg hxs, if_pos (lt_writtenWidth_of_lt hx)]
      refine congrArg some ?_
      unfold chromaScalarRefNoCfl
      dsimp only
      rw [if_pos (rfl : (1:Nat) = 1)]
      obtain ⟨hb1, hb2⟩ := chromaTailLumaBuffer_pair (w := width) (x := x)
        (srcY (y * 2 ^ ssy)) (by omega) hx
      rw [getAverageLuma_one
          (chromaTailLumaBuffer width 1 (srcY (y * 2 ^ ssy)))
          (x - safeWidth (subsampled width 1))
          (by rw [hb1]; exact hsrcY _ _) (by rw [hb2]; exact hsrcY _ _),
        hb1, hb2,
        chromaTailChromaBuffer_valid (srcC y) (by omega) hx]
      have h255 : (srcY (y * 2 ^ ssy) (2 * x)
          + srcY (y * 2 ^ ssy) (min (2 * x + 1) (width - 1)) + 1) / 2
            ≤ 255 := by
        have hu := hsrcY (y * 2 ^ ssy) (2 * x)
        have hv := hsrcY (y * 2 ^ ssy) (min (2 * x + 1) (width - 1))
        omega
      exact noCflLane_eq_spec h8 h11 hlut hlm0 hlm1 hcm0 hcm1 hoff0 hoff1
        (Nat.cast_nonneg _) (by exact_mod_cast h255)
        (Nat.cast_nonneg _) (by exact_mod_cast hsrcC _ _)
        (hnz _ _).1 (hnz _ _).2 hm0 hmm hm1

/-- C8: for every width that is not a multiple of the kernels' natural
vector width of 8 samples, the padded vectorized right-edge path produces,
on the valid columns, exactly the outputs of a strictly per-sample scalar
loop over only the valid columns.  Stated for the luma kernel and for the
multiplier-mode chroma kernel (where the relevant width is the chroma
width). -/
theorem vectorized_edge_matches_scalar :
    (∀ (lut : Int → Int) (scalingShift : Nat) (minValue maxLuma : Int)
      (width height startHeight : Nat) (srcY : Nat → Nat → Nat)
      (noiseY : Nat → Nat → Int),
      width % 8 ≠ 0 →
      8 ≤ scalingShift → scalingShift ≤ 11 →
      (∀ i, 0 ≤ lut i ∧ lut i ≤ 255) →
      (∀ r c, srcY r c ≤ 255) →
      (∀ r c, -128 ≤ noiseY r c ∧ noiseY r c ≤ 127) →
      0 ≤ minValue → minValue ≤ maxLuma → maxLuma ≤ 255 →
      ∀ y x, y < max height 1 → x < width →
        blendNoiseWithImageLuma8 lut scalingShift minValue maxLuma width
            height startHeight srcY noiseY y x
          = some (lumaScalarRef lut scalingShift minValue maxLuma
              startHeight srcY noiseY y x)) ∧
    (∀ (lut : Int → Int) (scalingShift : Nat)
      (chromaOffset chromaMult lumaMult minValue maxChroma : Int)
      (width height startHeight ssx ssy : Nat)
      (srcY srcC : Nat → Nat → Nat) (noise : Nat → Nat → Int),
      8 ≤ scalingShift → scalingShift ≤ 11 →
      (∀ i, 0 ≤ lut i ∧ lut i ≤ 255) →
      -128 ≤ lumaMult → lumaMult ≤ 127 →
      -128 ≤ chromaMult → chromaMult ≤ 127 →
      -256 ≤ chromaOffset → chromaOffset ≤ 255 →
      (∀ r c, srcY r c ≤ 255) → (∀ r c, srcC r c ≤ 255) →
      (∀ r c, -128 ≤ noise r c ∧ noise r c ≤ 127) →
      0 ≤ minValue → minValue ≤ maxChroma → maxChroma ≤ 255 →
      ssx ≤ 1 → ssy ≤ 1 →
      subsampled width ssx % 8 ≠ 0 →
      ∀ y x, y < max (subsampled height ssy) 1 →
        x < subsampled width ssx →
        blendChromaPlane8bpp lut scalingShift chromaOffset chromaMult
            lumaMult minValue maxChroma width height startHeight ssx ssy
            srcY srcC noise y x
          = some (chromaScalarRefNoCfl lut scalingShift chromaOffset
              chromaMult lumaMult minValue maxChroma width startHeight ssx
              ssy srcY srcC noise y x)) := by
  constructor
  · intro lut scalingShift minValue maxLuma width height startHeight srcY
      noiseY hw h8 h11 hlut hsrc hnz hm0 hmm hm1 y x hy hx
    exact lumaKernel_formula lut scalingShift minValue maxLuma width height
      startHeight srcY noiseY h8 h11 hlut hsrc hnz hm0 hmm hm1 y x hy hx
  · intro lut scalingShift chromaOffset chromaMult lumaMult minValue
      maxChroma width height startHeight ssx ssy srcY srcC noise h8 h11
      hlut hlm0 hlm1 hcm0 hcm1 hoff0 hoff1 hsrcY hsrcC hnz hm0 hmm hm1
      hssx hssy hcw y x hy hx
    exact noCflKernel_formula lut scalingShift chromaOffset chromaMult
      lumaMult minValue maxChroma width height startHeight ssx ssy srcY
      srcC noise h8 h11 hlut hlm0 hlm1 hcm0 hcm1 hoff0 hoff1 hsrcY hsrcC
      hnz hm0 hmm hm1 hssx hssy hcw y x hy hx

/-- Witness for C8: the luma kernel on a 4-wide block (4 % 8 = 4) and the
multiplier-mode chroma kernel on a 4x2 block with 4:2:0 subsampling
(chroma width 2), both at a right-edge column. -/
theorem vectorized_edge_matches_scalar_witness :
    blendNoiseWithImageLuma8 (fun _ => 20) 8 0 255 4 1 0 (fun _ _ => 100)
        (fun _ _ => 64) 0 3
      = some (lumaScalarRef (fun _ => 20) 8 0 255 0 (fun _ _ => 100)
          (fun _ _ => 64) 0 3) ∧
    blendChromaPlane8bpp (fun _ => 20) 8 10 (-64) 64 0 255 4 2 0 1 1
        (fun _ _ => 100) (fun _ _ => 90) (fun _ _ => 50) 0 1
      = some (chromaScalarRefNoCfl (fun _ => 20) 8 10 (-64) 64 0 255 4 0 1 1
          (fun _ _ => 100) (fun _ _ => 90) (fun _ _ => 50) 0 1) :=
  ⟨vectorized_edge_matches_scalar.1 (fun _ => 20) 8 0 255 4 1 0
      (fun _ _ => 100) (fun _ _ => 64) (by decide) (by decide) (by decide)
      (fun i => by constructor <;> norm_num) (fun r c => by norm_num)
      (fun r c => by constructor <;> norm_num) (by decide) (by decide)
      (by decide) 0 3 (by decide) (by decide),
    vectorized_edge_matches_scalar.2 (fun _ => 20) 8 10 (-64) 64 0 255 4 2 0
      1 1 (fun _ _ => 100) (fun _ _ => 90) (fun _ _ => 50) (by decide)
      (by decide) (fun i => by constructor <;> norm_num) (by decide)
      (by decide) (by decide) (by decide) (by decide) (by decide)
      (fun r c => by norm_num) (fun r c => by norm_num)
      (fun r c => by constructor <;> norm_num) (by decide) (by decide)
      (by decide) (by decide) (by decide) (by decide) 0 1 (by decide)
      (by decide)⟩

/-! ## Claim C10: SSE4 film-grain dispatch registration -/

/-- Tags naming the kernels registered by FilmGrainInit_SSE4_1. -/
inductive FilmGrainKernel
  | lumaSse4 (bitdepth : Nat)
  | chromaMultiplierSse4At8bpp
  | chromaCflSse4 (bitdepth : Nat)

/-- The film-grain rows of one bit depth's Dsp table:
`blend_noise_luma`, `blend_noise_chroma[0]` (multiplier mode) and
`blend_noise_chroma[1]` (CFL mode). -/
structure Dsp where
  blendNoiseLuma : Option FilmGrainKernel
  blendNoiseChroma0 : Option FilmGrainKernel
  blendNoiseChroma1 : Option FilmGrainKernel

/-- `Init8bpp` of film_grain_sse4.cc: overwrites all three film-grain
slots of the 8-bit table. -/
def init8bpp (d : Dsp) : Dsp :=
  { d with
    blendNoiseLuma := some (FilmGrainKernel.lumaSse4 8)
    blendNoiseChroma0 := some FilmGrainKernel.chromaMultiplierSse4At8bpp
    blendNoiseChroma1 := some (FilmGrainKernel.chromaCflSse4 8) }

/-- `Init10bpp` of film_grain_sse4.cc: overwrites the luma slot and
`blend_noise_chroma[1]` of the 10-bit table and touches nothing else. -/
def init10bpp (d : Dsp) : Dsp :=
  { d with
    blendNoiseLuma := some (FilmGrainKernel.lumaSse4 10)
    blendNoiseChroma1 := some (FilmGrainKernel.chromaCflSse4 10) }

/-- `FilmGrainInit_SSE4_1`: run `Init8bpp` on the writable table for bit
depth 8 and `Init10bpp` on the writable table for bit depth 10. -/
def filmGrainInitSse4 (tables : Nat → Dsp) : Nat → Dsp := fun bd =>
  if bd = 8 then init8bpp (tables 8)
  else if bd = 10 then init10bpp (tables 10)
  else tables bd

/-- C10: the SSE4 film-grain setup registers, for bit depth 10, only the
luma kernel and the CFL chroma kernel; the multiplier-mode slot
`blend_noise_chroma[0]` is written only by the 8-bit setup and is left
unchanged by `Init10bpp`, so for bit depth 10 that slot keeps whatever was
previously registered (or none). -/
theorem sse4_film_grain_registration (tables : Nat → Dsp) :
    (filmGrainInitSse4 tables 10).blendNoiseChroma0
        = (tables 10).blendNoiseChroma0 ∧
    (init10bpp (tables 10)).blendNoiseChroma0
        = (tables 10).blendNoiseChroma0 ∧
    (filmGrainInitSse4 tables 10).blendNoiseLuma
        = some (FilmGrainKernel.lumaSse4 10) ∧
    (filmGrainInitSse4 tables 10).blendNoiseChroma1
        = some (FilmGrainKernel.chromaCflSse4 10) ∧
    (filmGrainInitSse4 tables 8).blendNoiseChroma0
        = some FilmGrainKernel.chromaMultiplierSse4At8bpp :=
  ⟨rfl, rfl, rfl, rfl, rfl⟩

end LibGav1
